import Mathlib

/-!
Shallow embedding of the bee-rs content-addressing and postage-stamp
authorization core, together with theorems settling the specification
claims against it.

Sources embedded (crate `primitives` unless noted):
* `chunk/bmt_body.rs`   — `BMTBody`, its builder, byte encoding/decoding;
* `chunk/single_owner.rs` — `SingleOwnerChunk` construction and `verify`;
* `postage/batch.rs`    — `Batch::depth_for_size`, `BatchConfig::build`;
* `postage/pat.rs`      — `Pat::inc`, `BucketSeeker::get_x`;
* `postage/mod.rs`      — `PostageAuthorizer`, `ChunkAuthorizations`.

Bytes are modelled as `Nat` values (< 256 where it matters), byte strings
as `List Nat`, machine integers as `Nat` with explicit bounds where
overflow matters.  Hash maps / hash sets become association lists /
membership-checked lists, preserving the source's insert/retain logic.
External cryptography (Keccak-256, the BMT hasher, secp256k1 signature
parsing and recovery) is kept abstract: the owner-signed-chunk functions
are parameterised over a `SocModel` bundle of those primitives, exactly
as the source calls them.
-/

/-- Little-endian byte encoding of `v` on `w` bytes (`u64::to_le_bytes` is
the `w = 8` case). -/
def toLeBytes : Nat → Nat → List Nat
  | 0, _ => []
  | w + 1, v => (v % 256) :: toLeBytes w (v / 256)

/-- Little-endian byte decoding (`u64::from_le_bytes`). -/
def fromLeBytes : List Nat → Nat
  | [] => 0
  | b :: bs => b + 256 * fromLeBytes bs

/-- Big-endian byte decoding (`u32::from_be_bytes`). -/
def fromBeBytes (bs : List Nat) : Nat :=
  bs.foldl (fun acc b => acc * 256 + b) 0

/-- Rust `SPAN_SIZE` from `nectar_primitives_traits`: the 8-byte span prefix. -/
def SPAN_SIZE : Nat := 8

/-- Rust `CHUNK_SIZE` from `nectar_primitives_traits`: maximum payload bytes. -/
def CHUNK_SIZE : Nat := 4096

/-- Rust `ChunkError` from `nectar_primitives_traits::chunk` (the variants used
by `bmt_body.rs`). -/
inductive ChunkError where
  | Size (context : String) (size : Nat) (limit : Nat)
  | MissingField (field : String)
deriving DecidableEq, Repr

/-- Rust `BMTBody` from `chunk/bmt_body.rs`: span plus payload bytes.  The
`cached_hash : OnceLock<ChunkAddress>` memoisation cell is not part of the
logical state (it never affects the encoded bytes or decoding) and is
omitted. -/
structure BMTBody where
  span : Nat
  data : List Nat
deriving DecidableEq, Repr

/-- Rust `BMTBodyBuilder` from `chunk/bmt_body.rs`. -/
structure BMTBodyBuilder where
  span : Option Nat := none
  data : Option (List Nat) := none
deriving DecidableEq, Repr

/-- Rust `BMTBodyBuilder::build`: `data` is required, rejected above
`CHUNK_SIZE`; a missing span defaults to the data length. -/
def BMTBodyBuilder.build (b : BMTBodyBuilder) : Except ChunkError BMTBody :=
  match b.data with
  | none => .error (.MissingField "data")
  | some data =>
    if data.length > CHUNK_SIZE then
      .error (.Size "data exceeds maximum chunk size" data.length CHUNK_SIZE)
    else
      .ok { span := b.span.getD data.length, data := data }

/-- Rust `impl From<BMTBody> for Bytes`: span as 8 bytes little-endian followed
by the payload. -/
def BMTBody.toBytes (b : BMTBody) : List Nat :=
  toLeBytes SPAN_SIZE b.span ++ b.data

/-- Rust `impl TryFrom<Bytes> for BMTBody` from `chunk/bmt_body.rs`. -/
def BMTBody.tryFrom (bytes : List Nat) : Except ChunkError BMTBody :=
  if bytes.length < SPAN_SIZE then
    .error (.Size "insufficient data for span" bytes.length SPAN_SIZE)
  else if bytes.length > SPAN_SIZE + CHUNK_SIZE then
    .error (.Size "data exceeds maximum size" bytes.length (SPAN_SIZE + CHUNK_SIZE))
  else
    .ok { span := fromLeBytes (bytes.take SPAN_SIZE), data := bytes.drop SPAN_SIZE }

/-- Modelled from the spec: `BMTBody::new(span, data)` is called by
`single_owner.rs` but is absent from `src/` (only the private
`new_unchecked` and the builder appear).  Spec 4.1: construction rejects
payloads exceeding the fixed chunk size with a size-violation error
carrying the offending length and limit; this matches the builder's
validation. -/
def BMTBody.new (span : Nat) (data : List Nat) : Except ChunkError BMTBody :=
  if data.length > CHUNK_SIZE then
    .error (.Size "data exceeds maximum chunk size" data.length CHUNK_SIZE)
  else
    .ok { span := span, data := data }

/-- Abstract cryptographic primitives consumed by `single_owner.rs`:
`keccak` is `Keccak256` over the concatenated input bytes, `bodyHash` is
`BMTBody::hash` (the BMT hasher lives outside the embedded sources),
`recover` is `PrimitiveSignature::recover_address_from_msg` (`none` models
`Err`, i.e. failed recovery of a malformed signature), `parseSig` is
`PrimitiveSignature::try_from` on a byte slice (`none` models a parse
error). -/
structure SocModel where
  keccak : List Nat → List Nat
  bodyHash : BMTBody → List Nat
  recover : List Nat → List Nat → Option (List Nat)
  parseSig : List Nat → Option (List Nat)

/-- Rust `SingleOwnerChunk` from `chunk/single_owner.rs`. -/
structure SingleOwnerChunk where
  id : List Nat
  owner : List Nat
  signature : List Nat
  body : BMTBody
deriving DecidableEq, Repr

/-- Rust `SingleOwnerChunk::to_sign`: digest = keccak(id ‖ body-hash). -/
def SingleOwnerChunk.to_sign (M : SocModel) (id : List Nat) (body : BMTBody) : List Nat :=
  M.keccak (id ++ M.bodyHash body)

/-- Rust `SingleOwnerChunk::address`: keccak(id ‖ owner). -/
def SingleOwnerChunk.address (M : SocModel) (c : SingleOwnerChunk) : List Nat :=
  M.keccak (c.id ++ c.owner)

/-- Rust `SingleOwnerChunk::verify` from `chunk/single_owner.rs` lines 99-108:
recover the signer from the signature over the signed digest; true only if
the recovered owner equals the stored owner and the supplied address
equals the recomputed chunk address; false when recovery fails. -/
def SingleOwnerChunk.verify (M : SocModel) (c : SingleOwnerChunk) (address : List Nat) : Bool :=
  match M.recover c.signature (SingleOwnerChunk.to_sign M c.id c.body) with
  | some recovered_owner =>
      recovered_owner == c.owner && address == SingleOwnerChunk.address M c
  | none => false

/-- Result of running a fallible Rust function that may also panic:
`.panicked` models an aborted `unwrap()` on `Err`. -/
inductive Outcome (ε α : Type) where
  | panicked
  | error (e : ε)
  | ok (a : α)
deriving DecidableEq, Repr

/-- Rust `SingleOwnerChunkError` from `chunk/single_owner.rs`. -/
inductive SingleOwnerChunkError where
  | BMTBodyError (e : ChunkError)
  | AlloySignerError
  | ChunkMismatch (address recovered_chunk_address recovered_owner : List Nat)
  | InsufficientData (min_size actual_size : Nat)
deriving DecidableEq, Repr

/-- Rust `ID_SIZE + SIGNATURE_SIZE` from `chunk/single_owner.rs`: 32 + 65. -/
def MIN_SOC_FIELDS_SIZE : Nat := 32 + 65

/-- Rust `SingleOwnerChunk::new_signed` from `chunk/single_owner.rs` lines
53-79.  The source calls `.unwrap()` on the recovery result, so a failed
recovery is a panic (`.panicked`), not an error value. -/
def SingleOwnerChunk.new_signed (M : SocModel) (address : List Nat) (id : List Nat)
    (signature : List Nat) (data : List Nat) : Outcome SingleOwnerChunkError SingleOwnerChunk :=
  match BMTBody.new data.length data with
  | .error e => .error (.BMTBodyError e)
  | .ok body =>
    match M.recover signature (SingleOwnerChunk.to_sign M id body) with
    | none => .panicked
    | some recovered_owner =>
      let chunk : SingleOwnerChunk :=
        { id := id, owner := recovered_owner, signature := signature, body := body }
      let recovered_chunk_address := SingleOwnerChunk.address M chunk
      if recovered_chunk_address == address then .ok chunk
      else .error (.ChunkMismatch address recovered_chunk_address recovered_owner)

/-- Rust `SingleOwnerChunk::from_slice` from `chunk/single_owner.rs` lines
127-148: length guard, then id(32) ‖ signature(65) ‖ body bytes; signature
parse errors propagate as error values, while a failed recovery is
`.unwrap()`ed, i.e. a panic. -/
def SingleOwnerChunk.from_slice (M : SocModel) (value : List Nat) :
    Outcome SingleOwnerChunkError SingleOwnerChunk :=
  if value.length < MIN_SOC_FIELDS_SIZE then
    .error (.InsufficientData MIN_SOC_FIELDS_SIZE value.length)
  else
    let id := value.take 32
    match M.parseSig ((value.drop 32).take 65) with
    | none => .error .AlloySignerError
    | some signature =>
      match BMTBody.tryFrom (value.drop MIN_SOC_FIELDS_SIZE) with
      | .error e => .error (.BMTBodyError e)
      | .ok body =>
        match M.recover signature (SingleOwnerChunk.to_sign M id body) with
        | none => .panicked
        | some recovered_owner =>
          .ok { id := id, owner := recovered_owner, signature := signature, body := body }

/-- A concrete `SocModel` whose signature recovery always fails — the
behaviour of `recover_address_from_msg` on a malformed (e.g. all-zero
r, s) signature.  `parseSig` accepts, since a 65-byte all-zero slice
parses (parity byte 0). -/
def failingRecoveryModel : SocModel where
  keccak := fun _ => List.replicate 32 0
  bodyHash := fun _ => List.replicate 32 0
  recover := fun _ _ => none
  parseSig := fun s => some s

/-- Rust `MIN_BUCKET_DEPTH` from `postage/batch.rs`. -/
def MIN_BUCKET_DEPTH : Nat := 16

/-- Rust `Batch` from `postage/batch.rs` (ids, values, owners as abstract
numeric identifiers). -/
structure Batch where
  id : Nat
  value : Nat
  owner : Nat
  depth : Nat
  bucket_depth : Nat
  immutable : Bool
deriving DecidableEq, Repr

/-- Rust `Batch::depth_for_size` from `postage/batch.rs` lines 122-125.  The
source computes `let chunks = (size / CHUNK_SIZE as u64).min(1);
(chunks as f64).log2().ceil() as u8`.  Because of `.min(1)` the value of
`chunks` is always 0 or 1, both exactly representable in `f64`:
`(0f64).log2().ceil()` is negative infinity, whose saturating `as u8`
cast yields 0, and for `chunks ≥ 1` the float pipeline computes
`ceil(log2 chunks)` exactly, i.e. `Nat.clog 2 chunks`. -/
def Batch.depth_for_size (size : Nat) : Nat :=
  let chunks := min (size / CHUNK_SIZE) 1
  if chunks = 0 then 0 else Nat.clog 2 chunks

/-- Rust `BatchError` from `postage/batch.rs`. -/
inductive BatchError where
  | InvalidDepth (d : Nat)
  | InvalidBucketDepth (d : Nat)
  | SizeTooSmall
  | DurationInBlocksZero
  | BlockTimeZero
  | MissingField (field : String)
deriving DecidableEq, Repr

/-- Rust `BatchConfig` from `postage/batch.rs`. -/
structure BatchConfig where
  id : Option Nat := none
  value : Option Nat := none
  owner : Option Nat := none
  depth : Option Nat := none
  bucket_depth : Option Nat := none
  immutable : Option Bool := none
deriving DecidableEq, Repr

/-- Rust `BatchConfig::build` from `postage/batch.rs` lines 176-197: id,
value, owner and depth are required (checked in that order); a missing
bucket_depth defaults to `depth.max(MIN_BUCKET_DEPTH)` and a missing
immutable flag to `IMMUTABLE_DEFAULT = false`; finally
`bucket_depth > depth` is rejected. -/
def BatchConfig.build (c : BatchConfig) : Except BatchError Batch :=
  match c.id with
  | none => .error (.MissingField "id")
  | some id =>
    match c.value with
    | none => .error (.MissingField "value")
    | some value =>
      match c.owner with
      | none => .error (.MissingField "owner")
      | some owner =>
        match c.depth with
        | none => .error (.MissingField "depth")
        | some depth =>
          let bucket_depth := c.bucket_depth.getD (max depth MIN_BUCKET_DEPTH)
          let immutable := c.immutable.getD false
          if bucket_depth > depth then
            .error (.InvalidBucketDepth bucket_depth)
          else
            .ok { id := id, value := value, owner := owner, depth := depth,
                  bucket_depth := bucket_depth, immutable := immutable }

/-- Rust `PatError` from `postage/pat.rs`. -/
inductive PatError where
  | BucketFull
  | BatchNotFound (id : Nat)
deriving DecidableEq, Repr

/-- Rust `Pat` from `postage/pat.rs` (the fields read and written by `inc`;
the signer, amount and expiry flags play no part in bucket accounting). -/
structure Pat where
  batch_depth : Nat
  batch_bucket_depth : Nat
  buckets : List Nat
  max_bucket_depth : Nat
  immutable : Bool
deriving DecidableEq, Repr

/-- Rust `Pat::bucket_upper_bound`: `1 << (batch_depth - batch_bucket_depth)`. -/
def Pat.bucket_upper_bound (p : Pat) : Nat :=
  2 ^ (p.batch_depth - p.batch_bucket_depth)

/-- Rust `BucketSeeker::get_x` from `postage/pat.rs` lines 171-176: first four
address bytes as a big-endian integer, shifted right by
`32 - bucket_depth`. -/
def get_x (address : List Nat) (bucket_depth : Nat) : Nat :=
  fromBeBytes (address.take 4) / 2 ^ (32 - bucket_depth)

/-- Rust `Pat::inc` from `postage/pat.rs` lines 62-89.  `idx` is read from the
bucket counter *before* the full-bucket check; on a full bucket of a
mutable batch the counter is reset to 0 but the already-read `idx` (equal
to the upper bound) is returned.  `buckets[x]` is in range whenever the
address has ≥ 4 bytes below 256 and `buckets` has `2^bucket_depth`
entries (`Vec` indexing would panic otherwise); `getD` keeps the
definition total. -/
def Pat.inc (p : Pat) (address : List Nat) : Except PatError (Pat × Nat × Nat) :=
  let x := get_x address p.batch_bucket_depth
  let upper_bound := p.bucket_upper_bound
  let count := p.buckets.getD x 0
  let idx := count
  if count = upper_bound then
    if p.immutable then
      .error .BucketFull
    else
      .ok ({ p with buckets := p.buckets.set x 0 }, x, idx)
  else
    let c := count + 1
    let mbd := if c > p.max_bucket_depth then c else p.max_bucket_depth
    .ok ({ p with buckets := p.buckets.set x c, max_bucket_depth := mbd }, x, idx)

/-- Rust `AuthError` from `primitives-traits/src/auth.rs` (the `Crypto` and
`Io` payloads are irrelevant to the claims and dropped). -/
inductive AuthError where
  | InvalidProof (msg : String)
  | Expired
  | CapacityExceeded
  | InvalidState (msg : String)
  | Crypto
  | Io
deriving DecidableEq, Repr

/-- Rust `PostageProof` from `postage/mod.rs`.  `sig_ok` is modelled from the
spec: the result of `PostageProof::verify_signature`, which `validate`
calls but which is defined nowhere under `src/` ("the stamp's signature
verifies (else a crypto error)"). -/
structure PostageProof where
  batch_id : Nat
  stamp_index : Nat
  timestamp : Nat
  sig_ok : Bool
deriving DecidableEq, Repr

/-- Rust `BatchInfo` from `postage/mod.rs` (the used-stamp `HashSet<u32>` as a
duplicate-free list). -/
structure BatchInfo where
  expires_at : Nat
  depth : Nat
  amount_per_chunk : Nat
  used_stamps : List Nat
  immutable : Bool
deriving DecidableEq, Repr

/-- Rust `BatchInfo::max_stamps`: `1 << depth`. -/
def BatchInfo.max_stamps (b : BatchInfo) : Nat := 2 ^ b.depth

/-- Rust `BatchInfo::is_stamp_used`. -/
def BatchInfo.is_stamp_used (b : BatchInfo) (index : Nat) : Bool :=
  b.used_stamps.contains index

/-- Rust `BatchInfo::use_stamp` (defined in the source but never called). -/
def BatchInfo.use_stamp (b : BatchInfo) (index : Nat) : BatchInfo × Bool :=
  if b.max_stamps ≤ index then (b, false)
  else if b.used_stamps.contains index then (b, false)
  else ({ b with used_stamps := index :: b.used_stamps }, true)

/-- Rust `ChunkAuthorizations` from `postage/mod.rs`: the
`HashMap<ChunkAddress, HashSet<(BatchId, u32)>>` as an association list
of duplicate-free pair lists, plus the running total. -/
structure ChunkAuthorizations where
  authorizations : List (Nat × List (Nat × Nat))
  total_count : Nat
deriving DecidableEq, Repr

/-- Rust `HashMap::entry(..).or_default().insert(pair)` used by
`ChunkAuthorizations::add`: insert the pair into the set stored under
`chunk` (creating the entry if absent) and report whether it was new. -/
def addToMap : List (Nat × List (Nat × Nat)) → Nat → Nat × Nat →
    List (Nat × List (Nat × Nat)) × Bool
  | [], chunk, pair => ([(chunk, [pair])], true)
  | (c, s) :: rest, chunk, pair =>
    if c = chunk then
      if pair ∈ s then ((c, s) :: rest, false)
      else ((c, pair :: s) :: rest, true)
    else
      let r := addToMap rest chunk pair
      ((c, s) :: r.1, r.2)

/-- Rust `ChunkAuthorizations::add` from `postage/mod.rs` lines 72-82 (defined
in the source but never called): record the pair and bump the total only
when it is new. -/
def ChunkAuthorizations.add (ca : ChunkAuthorizations) (chunk : Nat)
    (batch_id : Nat) (stamp_index : Nat) : ChunkAuthorizations :=
  let r := addToMap ca.authorizations chunk (batch_id, stamp_index)
  { authorizations := r.1,
    total_count := if r.2 then ca.total_count + 1 else ca.total_count }

/-- Rust `ChunkAuthorizations::remove_batch` from `postage/mod.rs` lines
84-94: drop every pair of the given batch from every entry, drop entries
left empty, subtract and return the number of pairs dropped. -/
def ChunkAuthorizations.remove_batch (ca : ChunkAuthorizations) (batch_id : Nat) :
    ChunkAuthorizations × Nat :=
  let removed := (ca.authorizations.map
    (fun e => e.2.length - (e.2.filter (fun q => q.1 != batch_id)).length)).sum
  let m := (ca.authorizations.map
    (fun e => (e.1, e.2.filter (fun q => q.1 != batch_id)))).filter
    (fun e => !e.2.isEmpty)
  ({ authorizations := m, total_count := ca.total_count - removed }, removed)

/-- Rust `PostageAuthorizer` from `postage/mod.rs`: the batch `HashMap` as an
association list. -/
structure PostageAuthorizer where
  batches : List (Nat × BatchInfo)
  chunk_auths : ChunkAuthorizations
deriving DecidableEq, Repr

/-- Rust `PostageAuthorizer::new`. -/
def PostageAuthorizer.new : PostageAuthorizer :=
  { batches := [], chunk_auths := { authorizations := [], total_count := 0 } }

/-- Rust `HashMap::get` on the batch map. -/
def lookupBatch : List (Nat × BatchInfo) → Nat → Option BatchInfo
  | [], _ => none
  | (k, v) :: rest, id => if k = id then some v else lookupBatch rest id

/-- Rust `PostageAuthorizer::add_batch` from `postage/mod.rs` lines 113-137:
reject an existing id with an invalid-state error, otherwise register
fresh state with an empty used-stamp set. -/
def PostageAuthorizer.add_batch (a : PostageAuthorizer) (id : Nat) (depth : Nat)
    (expires_at : Nat) (amount_per_chunk : Nat) (immutable : Bool) :
    Except AuthError PostageAuthorizer :=
  if (lookupBatch a.batches id).isSome then
    .error (.InvalidState "batch already exists")
  else
    .ok { a with
      batches := (id, { expires_at := expires_at, depth := depth,
                        amount_per_chunk := amount_per_chunk,
                        used_stamps := [], immutable := immutable }) :: a.batches }

/-- Rust `PostageAuthorizer::authorized_chunk_count`. -/
def PostageAuthorizer.authorized_chunk_count (a : PostageAuthorizer) : Nat :=
  a.chunk_auths.total_count

/-- Rust `PostageAuthorizer::validate` from `postage/mod.rs` lines 147-172.
It takes the authorizer by shared reference (`&self`) and returns only
`AuthResult<()>`: it can and does mutate nothing — in particular it never
calls `ChunkAuthorizations::add` or `BatchInfo::use_stamp`.  The `chunk`
argument is unused by the source body. -/
def PostageAuthorizer.validate (a : PostageAuthorizer) (_chunk : Nat)
    (proof : PostageProof) : Except AuthError Unit :=
  match lookupBatch a.batches proof.batch_id with
  | none => .error (.InvalidProof "batch not found")
  | some batch =>
    if batch.expires_at ≤ proof.timestamp then
      .error .Expired
    else if batch.is_stamp_used proof.stamp_index then
      .error (.InvalidProof "stamp already used")
    else if batch.max_stamps ≤ proof.stamp_index then
      .error (.InvalidProof "invalid stamp index")
    else if proof.sig_ok then
      .ok ()
    else
      .error .Crypto

/-- The `expired_batches` collection inside
`PostageAuthorizer::cleanup_expired`: ids of batches with
`expires_at <= now`. -/
def PostageAuthorizer.expired_batches (a : PostageAuthorizer) (now : Nat) : List Nat :=
  (a.batches.filter (fun p => decide (p.2.expires_at ≤ now))).map Prod.fst

/-- Rust `PostageAuthorizer::cleanup_expired` from `postage/mod.rs` lines
176-192: collect the expired batch ids, then remove each batch from the
batch map and its pairs from the chunk-authorization map, accumulating
the number of authorization entries removed (the `AuthResult` wrapper is
always `Ok` and omitted). -/
def PostageAuthorizer.cleanup_expired (a : PostageAuthorizer) (now : Nat) :
    PostageAuthorizer × Nat :=
  (a.expired_batches now).foldl
    (fun st batch_id =>
      let rb := st.1.chunk_auths.remove_batch batch_id
      ({ batches := st.1.batches.filter (fun p => p.1 != batch_id),
         chunk_auths := rb.1 }, st.2 + rb.2))
    (a, 0)

/-- Number of (batch, stamp) pairs recorded across all addresses of the
chunk-authorization map. -/
def ChunkAuthorizations.pairCount (ca : ChunkAuthorizations) : Nat :=
  (ca.authorizations.map (fun e => e.2.length)).sum

/-- States of a `PostageAuthorizer` reachable from `new()` by any
sequence of `add_batch`, `validate` and `cleanup_expired` calls
(`validate` takes `&self` and returns `AuthResult<()>`, so it never
produces a new state; a failed `add_batch` leaves the state unchanged). -/
inductive Reachable : PostageAuthorizer → Prop where
  | init : Reachable PostageAuthorizer.new
  | add_batch (a : PostageAuthorizer) (id depth expires_at amount_per_chunk : Nat)
      (immutable : Bool) (a' : PostageAuthorizer) :
      Reachable a →
      a.add_batch id depth expires_at amount_per_chunk immutable = .ok a' →
      Reachable a'
  | cleanup (a : PostageAuthorizer) (now : Nat) :
      Reachable a → Reachable (a.cleanup_expired now).1

/-- Characterisation used in the cleanup statements: the
chunk-authorization map with every pair of a batch in `ids` dropped and
entries left empty removed. -/
def scrubAuths (ids : List Nat) (m : List (Nat × List (Nat × Nat))) :
    List (Nat × List (Nat × Nat)) :=
  (m.map (fun e => (e.1, e.2.filter (fun q => !(ids.contains q.1))))).filter
    (fun e => !e.2.isEmpty)

/-- Characterisation used in the cleanup statements: the number of
recorded pairs belonging to batches in `ids`, over all addresses. -/
def removedAuths (ids : List Nat) (m : List (Nat × List (Nat × Nat))) : Nat :=
  (m.map (fun e => (e.2.filter (fun q => ids.contains q.1)).length)).sum

/-- Sample authorizer used to instantiate the cleanup theorem: batch 5
expires at 10 and holds three authorizations, batch 6 expires at 100 and
holds one. -/
def sampleAuthorizer : PostageAuthorizer :=
  { batches := [(5, { expires_at := 10, depth := 2, amount_per_chunk := 1,
                      used_stamps := [], immutable := false }),
                (6, { expires_at := 100, depth := 2, amount_per_chunk := 1,
                      used_stamps := [], immutable := false })],
    chunk_auths := { authorizations := [(70, [(5, 0), (6, 1), (5, 2)]), (71, [(5, 1)])],
                     total_count := 4 } }

/-- A `SocModel` with constant primitives, used to instantiate the
verify theorem on a concrete chunk. -/
def constSocModel : SocModel where
  keccak := fun _ => [7]
  bodyHash := fun _ => [9]
  recover := fun _ _ => some [1]
  parseSig := fun s => some s

theorem toLeBytes_length (w v : Nat) : (toLeBytes w v).length = w := by
  induction w generalizing v with
  | zero => rfl
  | succ w ih => simp [toLeBytes, ih]

theorem fromLeBytes_toLeBytes (w v : Nat) :
    fromLeBytes (toLeBytes w v) = v % 2 ^ (8 * w) := by
  induction w generalizing v with
  | zero => simp [toLeBytes, fromLeBytes, Nat.mod_one]
  | succ w ih =>
    have hp : 2 ^ (8 * (w + 1)) = 256 * 2 ^ (8 * w) := by
      rw [Nat.mul_succ, pow_add]
      ring
    simp only [toLeBytes, fromLeBytes, ih, hp]
    rw [Nat.mod_mul]

/-- C8: for every span `s` (a `u64`) and payload `p` with at most 4096
bytes, building the content-chunk body from `(s, p)`, encoding it as span
(8 bytes little-endian) followed by the payload and decoding those bytes
back yields exactly the body with span `s` and payload `p`. -/
theorem bmt_body_roundtrip (s : Nat) (p : List Nat) (hs : s < 2 ^ 64)
    (hp : p.length ≤ 4096) :
    BMTBodyBuilder.build { span := some s, data := some p } =
      .ok { span := s, data := p } ∧
    BMTBody.tryFrom (BMTBody.toBytes { span := s, data := p }) =
      .ok { span := s, data := p } := by
  have h8 : (toLeBytes 8 s).length = 8 := toLeBytes_length 8 s
  constructor
  · simp [BMTBodyBuilder.build, CHUNK_SIZE, show ¬p.length > 4096 by omega]
  · simp only [BMTBody.tryFrom, BMTBody.toBytes, SPAN_SIZE, CHUNK_SIZE,
      List.length_append, h8]
    rw [if_neg (by omega), if_neg (by omega),
      List.take_left' h8, List.drop_left' h8, fromLeBytes_toLeBytes]
    have : s % 2 ^ (8 * 8) = s := Nat.mod_eq_of_lt (by norm_num at hs ⊢; omega)
    rw [this]

/-- Witness for C8 at span 300, payload `[9, 8, 7]`. -/
theorem bmt_body_roundtrip_witness :
    BMTBody.tryFrom (BMTBody.toBytes { span := 300, data := [9, 8, 7] }) =
      .ok { span := 300, data := [9, 8, 7] } :=
  (bmt_body_roundtrip 300 [9, 8, 7] (by norm_num) (by norm_num)).2

/-- C10: decoding a content-chunk body from raw bytes succeeds exactly
when 8 ≤ len ≤ 4104; shorter inputs fail with the insufficient-data size
error, longer ones with a size error carrying the offending length and
the 4104-byte limit, and on success the span is the first 8 bytes
little-endian and the payload is the rest. -/
theorem bmt_tryFrom_size_spec (bytes : List Nat) :
    ((∃ b, BMTBody.tryFrom bytes = .ok b) ↔
      8 ≤ bytes.length ∧ bytes.length ≤ 4104) ∧
    (bytes.length < 8 →
      BMTBody.tryFrom bytes =
        .error (.Size "insufficient data for span" bytes.length 8)) ∧
    (4104 < bytes.length →
      BMTBody.tryFrom bytes =
        .error (.Size "data exceeds maximum size" bytes.length 4104)) ∧
    (8 ≤ bytes.length → bytes.length ≤ 4104 →
      BMTBody.tryFrom bytes =
        .ok { span := fromLeBytes (bytes.take 8), data := bytes.drop 8 }) := by
  have hmain : ¬bytes.length < 8 → ¬bytes.length > 8 + 4096 →
      BMTBody.tryFrom bytes =
        .ok { span := fromLeBytes (bytes.take 8), data := bytes.drop 8 } := by
    intro h1 h2
    simp only [BMTBody.tryFrom, SPAN_SIZE, CHUNK_SIZE]
    rw [if_neg h1, if_neg h2]
  have herr1 : bytes.length < 8 →
      BMTBody.tryFrom bytes =
        .error (.Size "insufficient data for span" bytes.length 8) := by
    intro h1
    simp only [BMTBody.tryFrom, SPAN_SIZE, CHUNK_SIZE]
    rw [if_pos h1]
  have herr2 : 4104 < bytes.length →
      BMTBody.tryFrom bytes =
        .error (.Size "data exceeds maximum size" bytes.length 4104) := by
    intro h2
    simp only [BMTBody.tryFrom, SPAN_SIZE, CHUNK_SIZE]
    rw [if_neg (by omega), if_pos (by omega)]
  refine ⟨⟨?_, ?_⟩, herr1, herr2, fun ha hb => hmain (by omega) (by omega)⟩
  · rintro ⟨b, hb⟩
    by_cases h1 : bytes.length < 8
    · rw [herr1 h1] at hb
      exact absurd hb (by simp)
    · by_cases h2 : 4104 < bytes.length
      · rw [herr2 h2] at hb
        exact absurd hb (by simp)
      · constructor <;> omega
  · rintro ⟨ha, hb⟩
    exact ⟨_, hmain (by omega) (by omega)⟩

/-- Witness for C10 on an 11-byte input: span 42, payload `[1, 2, 3]`. -/
theorem bmt_tryFrom_size_spec_witness :
    BMTBody.tryFrom [42, 0, 0, 0, 0, 0, 0, 0, 1, 2, 3] =
      .ok { span := 42, data := [1, 2, 3] } := by
  have h := (bmt_tryFrom_size_spec [42, 0, 0, 0, 0, 0, 0, 0, 1, 2, 3]).2.2.2
    (by norm_num) (by norm_num)
  simpa using h

/-- C5: for every owner-signed chunk and candidate address, `verify`
returns true exactly when the signature recovers to the stored owner over
the signed digest keccak(id ‖ body-hash) and the address equals
keccak(id ‖ owner); consequently any change (e.g. a flipped byte of
payload, id or signature) that breaks either condition makes `verify`
return false. -/
theorem soc_verify_spec (M : SocModel) (c : SingleOwnerChunk) (a : List Nat) :
    (SingleOwnerChunk.verify M c a = true ↔
      (M.recover c.signature (SingleOwnerChunk.to_sign M c.id c.body) = some c.owner ∧
        a = M.keccak (c.id ++ c.owner))) ∧
    (M.recover c.signature (SingleOwnerChunk.to_sign M c.id c.body) ≠ some c.owner ∨
        a ≠ M.keccak (c.id ++ c.owner) →
      SingleOwnerChunk.verify M c a = false) := by
  have hiff : SingleOwnerChunk.verify M c a = true ↔
      (M.recover c.signature (SingleOwnerChunk.to_sign M c.id c.body) = some c.owner ∧
        a = M.keccak (c.id ++ c.owner)) := by
    unfold SingleOwnerChunk.verify SingleOwnerChunk.address
    cases h : M.recover c.signature (SingleOwnerChunk.to_sign M c.id c.body) with
    | none => simp [h]
    | some ro =>
      simp [h]
  refine ⟨hiff, fun h => ?_⟩
  rcases hv : SingleOwnerChunk.verify M c a with _ | _
  · rfl
  · rcases hiff.mp hv with ⟨h1, h2⟩
    rcases h with h | h
    · exact absurd h1 h
    · exact absurd h2 h

/-- Witness for C5: with constant crypto primitives, a chunk whose owner
matches the recovered address verifies at the recomputed address and
fails at any other address. -/
theorem soc_verify_spec_witness :
    SingleOwnerChunk.verify constSocModel
      { id := [], owner := [1], signature := [], body := { span := 0, data := [] } }
      [7] = true ∧
    SingleOwnerChunk.verify constSocModel
      { id := [], owner := [1], signature := [], body := { span := 0, data := [] } }
      [8] = false := by
  constructor
  · exact (soc_verify_spec constSocModel
      { id := [], owner := [1], signature := [], body := { span := 0, data := [] } }
      [7]).1.mpr ⟨rfl, rfl⟩
  · exact (soc_verify_spec constSocModel
      { id := [], owner := [1], signature := [], body := { span := 0, data := [] } }
      [8]).2 (Or.inr (by decide))

/-- C4 (code bug): at a malformed signature whose recovery fails, both
`new_signed` and `from_slice` hit the `.unwrap()` on the recovery result
and panic instead of returning a crypto-error value
(`chunk/single_owner.rs` lines 61 and 140). -/
theorem soc_recovery_failure_panics :
    SingleOwnerChunk.new_signed failingRecoveryModel (List.replicate 32 0)
      (List.replicate 32 0) (List.replicate 65 0) [] = .panicked ∧
    SingleOwnerChunk.from_slice failingRecoveryModel (List.replicate 105 0) =
      .panicked := by
  constructor <;> rfl

/-- C3 (code bug): `Batch::depth_for_size` computes
`(size / CHUNK_SIZE).min(1)` instead of `max(1, size / CHUNK_SIZE)`, so
`chunks` is always 0 or 1 and the result is 0 for every size — in
particular for 8192 bytes (two chunks), where the spec's formula
`ceil(log2(max(1, size / 4096)))` gives 1. -/
theorem depth_for_size_always_zero :
    (∀ size : Nat, Batch.depth_for_size size = 0) ∧
    Nat.clog 2 (max 1 (8192 / CHUNK_SIZE)) = 1 := by
  constructor
  · intro size
    unfold Batch.depth_for_size
    have h : min (size / CHUNK_SIZE) 1 = 0 ∨ min (size / CHUNK_SIZE) 1 = 1 :=
      Nat.le_one_iff_eq_zero_or_eq_one.mp (min_le_right (size / CHUNK_SIZE) 1)
    rcases h with h | h <;> simp [h, Nat.clog_one_right]
  · have : max 1 (8192 / CHUNK_SIZE) = 2 := by norm_num [CHUNK_SIZE]
    rw [this]
    exact Nat.clog_eq_one (by norm_num) (by norm_num)

/-- C2 (code bug): on a mutable batch whose bucket counter has reached
the upper bound 2^(depth − bucket_depth) = 2, `Pat::inc` succeeds and
resets the counter, but returns the sequence read *before* the reset —
the upper bound 2 itself, which lies outside [0, 2) — instead of 0; on
the identical immutable state it fails with bucket-full as the claim
says. -/
theorem pat_inc_wraparound_returns_upper_bound :
    Pat.inc ⟨2, 1, [2, 0], 2, false⟩ [0, 0, 0, 0] =
      .ok (⟨2, 1, [0, 0], 2, false⟩, 0, 2) ∧
    Pat.bucket_upper_bound ⟨2, 1, [2, 0], 2, false⟩ = 2 ∧
    ¬(2 : Nat) < 2 ∧
    Pat.inc ⟨2, 1, [2, 0], 2, true⟩ [0, 0, 0, 0] = .error .BucketFull :=
  ⟨rfl, rfl, by decide, rfl⟩

/-- C1 (code bug): `PostageAuthorizer::validate` takes `&self` and only
returns `AuthResult<()>`: after a successful validation nothing is
recorded — the chunk-authorization map stays empty, the count stays 0,
and the very same (batch, stamp) pair passes validation again instead of
being rejected as already used. -/
theorem validate_records_nothing :
    ∃ a1, PostageAuthorizer.new.add_batch 0 1 100 1 false = .ok a1 ∧
      a1.validate 7 { batch_id := 0, stamp_index := 0, timestamp := 50, sig_ok := true } =
        .ok () ∧
      a1.authorized_chunk_count = 0 ∧
      a1.chunk_auths.authorizations = [] ∧
      a1.validate 7 { batch_id := 0, stamp_index := 0, timestamp := 50, sig_ok := true } ≠
        .error (.InvalidProof "stamp already used") := by
  exact ⟨⟨[(0, ⟨100, 1, 1, [], false⟩)], ⟨[], 0⟩⟩,
         rfl, rfl, rfl, rfl, fun h => Except.noConfusion h⟩

/-- C6 counterexample: a configuration whose `bucket_depth` and
`immutable` were never supplied builds successfully (with defaults
`max(depth, 16)` and `false`) instead of failing with a missing-field
error naming those fields. -/
theorem build_succeeds_without_bucket_depth :
    BatchConfig.build { id := some 0, value := some 0, owner := some 0, depth := some 16,
                        bucket_depth := none, immutable := none } =
      .ok { id := 0, value := 0, owner := 0, depth := 16, bucket_depth := 16,
            immutable := false } := rfl

/-- C6 (amended): `BatchConfig::build` fails with a missing-field error
naming the field for each of id, value, owner and depth never supplied
(checked in that order); a missing bucket_depth defaults to
`max(depth, MIN_BUCKET_DEPTH)` and a missing immutable flag to `false`,
after which `bucket_depth > depth` is rejected as invalid-bucket-depth. -/
theorem build_missing_field_spec (c : BatchConfig) :
    (c.id = none → c.build = .error (.MissingField "id")) ∧
    (∀ i, c.id = some i → c.value = none →
      c.build = .error (.MissingField "value")) ∧
    (∀ i v, c.id = some i → c.value = some v → c.owner = none →
      c.build = .error (.MissingField "owner")) ∧
    (∀ i v o, c.id = some i → c.value = some v → c.owner = some o → c.depth = none →
      c.build = .error (.MissingField "depth")) ∧
    (∀ i v o d, c.id = some i → c.value = some v → c.owner = some o → c.depth = some d →
      c.bucket_depth = none → c.immutable = none →
      c.build =
        if max d MIN_BUCKET_DEPTH > d then
          .error (.InvalidBucketDepth (max d MIN_BUCKET_DEPTH))
        else
          .ok { id := i, value := v, owner := o, depth := d,
                bucket_depth := max d MIN_BUCKET_DEPTH, immutable := false }) := by
  refine ⟨?_, ?_, ?_, ?_, ?_⟩
  · intro h
    simp [BatchConfig.build, h]
  · intro i hi h
    simp [BatchConfig.build, hi, h]
  · intro i v hi hv h
    simp [BatchConfig.build, hi, hv, h]
  · intro i v o hi hv ho h
    simp [BatchConfig.build, hi, hv, ho, h]
  · intro i v o d hi hv ho hd hb him
    simp [BatchConfig.build, hi, hv, ho, hd, hb, him]

/-- Witness for the amended C6: the empty configuration fails with a
missing-field error naming `id`. -/
theorem build_missing_field_spec_witness :
    BatchConfig.build {} = .error (.MissingField "id") :=
  (build_missing_field_spec {}).1 rfl

theorem length_filter_compl {α : Type} (l : List α) (p : α → Bool) :
    (l.filter p).length + (l.filter (fun x => !p x)).length = l.length := by
  induction l with
  | nil => rfl
  | cons a t ih =>
    cases h : p a <;> simp [List.filter_cons, h] <;> omega

theorem length_filter_or {α : Type} (l : List α) (a b : α → Bool) :
    (l.filter (fun x => a x || b x)).length =
      (l.filter a).length + (l.filter (fun x => !a x && b x)).length := by
  induction l with
  | nil => rfl
  | cons x t ih =>
    cases ha : a x <;> cases hb : b x <;>
      simp [List.filter_cons, ha, hb, ih] <;> omega

theorem assoc_key_eq {β : Type} {l : List (Nat × β)} (h : (l.map Prod.fst).Nodup)
    {p q : Nat × β} (hp : p ∈ l) (hq : q ∈ l) (hkey : p.1 = q.1) : p = q := by
  induction l with
  | nil => cases hp
  | cons x t ih =>
    simp only [List.map_cons, List.nodup_cons] at h
    rcases List.mem_cons.mp hp with hp1 | hp1 <;> rcases List.mem_cons.mp hq with hq1 | hq1
    · rw [hp1, hq1]
    · exfalso
      apply h.1
      subst hp1
      rw [hkey]
      exact List.mem_map_of_mem Prod.fst hq1
    · exfalso
      apply h.1
      subst hq1
      rw [← hkey]
      exact List.mem_map_of_mem Prod.fst hp1
    · exact ih h.2 hp1 hq1

theorem filter_key_cons {β : Type} (bid : Nat) (ids : List Nat) (l : List (Nat × β)) :
    (l.filter (fun p => p.1 != bid)).filter (fun p => !(ids.contains p.1)) =
      l.filter (fun p => !((bid :: ids).contains p.1)) := by
  rw [List.filter_filter]
  apply List.filter_congr
  intro p _
  by_cases hpb : p.1 = bid <;> by_cases hpi : p.1 ∈ ids <;>
    simp [hpb, hpi, List.contains_cons, bne]

theorem filter_ne_map_comm (g : (Nat × List (Nat × Nat)) → (Nat × List (Nat × Nat)))
    (hg : ∀ e, e.2 = [] → (g e).2 = []) (l : List (Nat × List (Nat × Nat))) :
    ((l.filter (fun e => !e.2.isEmpty)).map g).filter (fun e => !e.2.isEmpty) =
      (l.map g).filter (fun e => !e.2.isEmpty) := by
  induction l with
  | nil => rfl
  | cons e t ih =>
    by_cases he : e.2 = []
    · simp [List.filter_cons, he, hg e he, ih]
    · simp [List.filter_cons, he, ih]

theorem sum_map_filter_ne (f : (Nat × List (Nat × Nat)) → Nat)
    (hf : ∀ e, e.2 = [] → f e = 0) (l : List (Nat × List (Nat × Nat))) :
    ((l.filter (fun e => !e.2.isEmpty)).map f).sum = (l.map f).sum := by
  induction l with
  | nil => rfl
  | cons e t ih =>
    by_cases he : e.2 = []
    · simp [List.filter_cons, he, hf e he, ih]
    · simp [List.filter_cons, he, ih]

theorem scrubAuths_filter_ne (ids : List Nat) (l : List (Nat × List (Nat × Nat))) :
    scrubAuths ids (l.filter (fun e => !e.2.isEmpty)) = scrubAuths ids l := by
  unfold scrubAuths
  exact filter_ne_map_comm _ (fun e he => by simp [he]) l

theorem removedAuths_filter_ne (ids : List Nat) (l : List (Nat × List (Nat × Nat))) :
    removedAuths ids (l.filter (fun e => !e.2.isEmpty)) = removedAuths ids l := by
  unfold removedAuths
  exact sum_map_filter_ne _ (fun e he => by simp [he]) l

theorem scrubAuths_nil (m : List (Nat × List (Nat × Nat)))
    (he : ∀ e ∈ m, e.2 ≠ []) : scrubAuths [] m = m := by
  unfold scrubAuths
  have h1 : m.map (fun e => (e.1, e.2.filter (fun q => !(List.contains [] q.1)))) = m := by
    rw [show m = m.map id from (List.map_id m).symm]
    rw [List.map_map]
    apply List.map_congr_left
    intro e _
    simp
  rw [h1]
  rw [List.filter_eq_self.mpr]
  intro e hme
  simpa using he e hme

theorem removedAuths_nil (m : List (Nat × List (Nat × Nat))) :
    removedAuths [] m = 0 := by
  induction m with
  | nil => rfl
  | cons e t ih =>
    unfold removedAuths at ih ⊢
    simp [ih]

theorem scrubAuths_cons (bid : Nat) (ids : List Nat)
    (m : List (Nat × List (Nat × Nat))) :
    scrubAuths ids
      ((m.map (fun e => (e.1, e.2.filter (fun q => q.1 != bid)))).filter
        (fun e => !e.2.isEmpty)) =
      scrubAuths (bid :: ids) m := by
  rw [scrubAuths_filter_ne]
  unfold scrubAuths
  rw [List.map_map]
  congr 1
  apply List.map_congr_left
  intro e _
  simp only [Function.comp_apply]
  rw [filter_key_cons]

theorem removed_entry (bid : Nat) (ids : List Nat) (s : List (Nat × Nat)) :
    (s.length - (s.filter (fun q => q.1 != bid)).length) +
      ((s.filter (fun q => q.1 != bid)).filter (fun q => ids.contains q.1)).length =
      (s.filter (fun q => (bid :: ids).contains q.1)).length := by
  have hc := length_filter_compl s (fun q => q.1 != bid)
  have h1 : s.filter (fun q => !(q.1 != bid)) = s.filter (fun q => q.1 == bid) := by
    apply List.filter_congr
    intro q _
    simp [bne]
  rw [h1] at hc
  have h2 : (s.filter (fun q => q.1 != bid)).filter (fun q => ids.contains q.1) =
      s.filter (fun q => !(q.1 == bid) && ids.contains q.1) := by
    rw [List.filter_filter]
    apply List.filter_congr
    intro q _
    by_cases hb : q.1 = bid <;> simp [hb, bne, Bool.and_comm]
  have h3 : s.filter (fun q => (bid :: ids).contains q.1) =
      s.filter (fun q => (q.1 == bid) || ids.contains q.1) := by
    apply List.filter_congr
    intro q _
    by_cases hb : q.1 = bid <;> simp [hb, List.contains_cons]
  have hor := length_filter_or s (fun q => q.1 == bid) (fun q => ids.contains q.1)
  rw [h2, h3, hor]
  omega

theorem removedAuths_cons (bid : Nat) (ids : List Nat)
    (m : List (Nat × List (Nat × Nat))) :
    (m.map (fun e => e.2.length - (e.2.filter (fun q => q.1 != bid)).length)).sum +
      removedAuths ids
        ((m.map (fun e => (e.1, e.2.filter (fun q => q.1 != bid)))).filter
          (fun e => !e.2.isEmpty)) =
      removedAuths (bid :: ids) m := by
  rw [removedAuths_filter_ne]
  unfold removedAuths
  rw [List.map_map]
  induction m with
  | nil => rfl
  | cons e t ih =>
    simp only [List.map_cons, List.sum_cons, Function.comp_apply]
    have he := removed_entry bid ids e.2
    omega

theorem cleanup_foldl (ids : List Nat) :
    ∀ (b : List (Nat × BatchInfo)) (m : List (Nat × List (Nat × Nat))) (tc acc : Nat),
    (∀ e ∈ m, e.2 ≠ []) →
    ids.foldl
      (fun (st : PostageAuthorizer × Nat) (batch_id : Nat) =>
        let rb := st.1.chunk_auths.remove_batch batch_id
        ({ batches := st.1.batches.filter (fun p => p.1 != batch_id),
           chunk_auths := rb.1 }, st.2 + rb.2))
      (⟨b, ⟨m, tc⟩⟩, acc) =
    ((⟨b.filter (fun p => !(ids.contains p.1)),
       ⟨scrubAuths ids m, tc - removedAuths ids m⟩⟩ : PostageAuthorizer),
     acc + removedAuths ids m) := by
  induction ids with
  | nil =>
    intro b m tc acc he
    simp only [List.foldl_nil]
    rw [scrubAuths_nil m he, removedAuths_nil]
    have hb : b.filter (fun p => !(List.contains [] p.1)) = b := by
      rw [List.filter_eq_self.mpr]
      intro p _
      simp
    rw [hb]
    simp
  | cons bid rest ih =>
    intro b m tc acc he
    rw [List.foldl_cons]
    have he' : ∀ e ∈ (m.map (fun e => (e.1, e.2.filter (fun q => q.1 != bid)))).filter
        (fun e => !e.2.isEmpty), e.2 ≠ [] := by
      intro e hme
      have := (List.mem_filter.mp hme).2
      simpa using this
    refine Eq.trans (ih (b.filter (fun p => p.1 != bid))
      ((m.map (fun e => (e.1, e.2.filter (fun q => q.1 != bid)))).filter
        (fun e => !e.2.isEmpty))
      (tc - (m.map (fun e => e.2.length -
        (e.2.filter (fun q => q.1 != bid)).length)).sum)
      (acc + (m.map (fun e => e.2.length -
        (e.2.filter (fun q => q.1 != bid)).length)).sum)
      he') ?_
    rw [filter_key_cons, scrubAuths_cons]
    have hr := removedAuths_cons bid rest m
    rw [← hr]
    simp [Nat.sub_sub, Nat.add_assoc]

/-- C7: `cleanup_expired(now)` removes exactly the batches with
`expires_at ≤ now` (leaving every other batch in place), drops exactly
those batches' pairs from the chunk-authorization map (dropping entries
left empty, leaving all other authorizations unchanged), returns the
number of authorization entries removed — not the number of batches —
and an immediately repeated call with the same `now` leaves the state
unchanged and returns 0.  The hypotheses state the `HashMap`/`HashSet`
representation invariants: batch keys are distinct and no address maps
to an empty authorization set. -/
theorem cleanup_expired_spec (a : PostageAuthorizer) (now : Nat)
    (hnd : (a.batches.map Prod.fst).Nodup)
    (hne : ∀ e ∈ a.chunk_auths.authorizations, e.2 ≠ []) :
    (a.cleanup_expired now).1.batches =
      a.batches.filter (fun p => decide (now < p.2.expires_at)) ∧
    (a.cleanup_expired now).1.chunk_auths.authorizations =
      scrubAuths (a.expired_batches now) a.chunk_auths.authorizations ∧
    (a.cleanup_expired now).2 =
      removedAuths (a.expired_batches now) a.chunk_auths.authorizations ∧
    (a.cleanup_expired now).1.cleanup_expired now = ((a.cleanup_expired now).1, 0) := by
  obtain ⟨b, ⟨m, tc⟩⟩ := a
  have hfold := cleanup_foldl
    ((b.filter (fun p => decide (p.2.expires_at ≤ now))).map Prod.fst) b m tc 0 hne
  have hcleanup : PostageAuthorizer.cleanup_expired ⟨b, ⟨m, tc⟩⟩ now =
      ((⟨b.filter (fun p =>
          !(((b.filter (fun p => decide (p.2.expires_at ≤ now))).map Prod.fst).contains p.1)),
         ⟨scrubAuths ((b.filter (fun p => decide (p.2.expires_at ≤ now))).map Prod.fst) m,
          tc - removedAuths
            ((b.filter (fun p => decide (p.2.expires_at ≤ now))).map Prod.fst) m⟩⟩ :
        PostageAuthorizer),
       0 + removedAuths
         ((b.filter (fun p => decide (p.2.expires_at ≤ now))).map Prod.fst) m) := hfold
  have hpt : ∀ p ∈ b,
      (!(((b.filter (fun p => decide (p.2.expires_at ≤ now))).map Prod.fst).contains p.1)) =
        decide (now < p.2.expires_at) := by
    intro p hp
    by_cases hle : p.2.expires_at ≤ now
    · have hmem : p.1 ∈ (b.filter (fun p => decide (p.2.expires_at ≤ now))).map Prod.fst :=
        List.mem_map_of_mem Prod.fst (List.mem_filter.mpr ⟨hp, by simpa using hle⟩)
      have hcont : ((b.filter (fun p => decide (p.2.expires_at ≤ now))).map Prod.fst).contains
          p.1 = true := List.elem_iff.mpr hmem
      rw [hcont]
      simp [show ¬now < p.2.expires_at by omega]
    · have hnotmem : p.1 ∉ (b.filter (fun p => decide (p.2.expires_at ≤ now))).map Prod.fst := by
        intro hmem
        obtain ⟨q, hq, hq1⟩ := List.mem_map.mp hmem
        have hq2 := List.mem_filter.mp hq
        have hqe : q.2.expires_at ≤ now := by simpa using hq2.2
        have hqp : q = p := assoc_key_eq hnd hq2.1 hp hq1
        rw [hqp] at hqe
        exact hle hqe
      have hcont : ((b.filter (fun p => decide (p.2.expires_at ≤ now))).map Prod.fst).contains
          p.1 = false := by
        cases hcc : ((b.filter (fun p => decide (p.2.expires_at ≤ now))).map Prod.fst).contains
            p.1 with
        | false => rfl
        | true => exact absurd (List.elem_iff.mp hcc) hnotmem
      rw [hcont]
      simp [show now < p.2.expires_at by omega]
  have hbatches : b.filter (fun p =>
        !(((b.filter (fun p => decide (p.2.expires_at ≤ now))).map Prod.fst).contains p.1)) =
      b.filter (fun p => decide (now < p.2.expires_at)) := List.filter_congr hpt
  refine ⟨?_, ?_, ?_, ?_⟩
  · rw [hcleanup]
    exact hbatches
  · rw [hcleanup]
    rfl
  · rw [hcleanup]
    exact Nat.zero_add _
  · rw [hcleanup]
    have hempty : PostageAuthorizer.expired_batches
        (⟨b.filter (fun p =>
            !(((b.filter (fun p => decide (p.2.expires_at ≤ now))).map Prod.fst).contains p.1)),
          ⟨scrubAuths ((b.filter (fun p => decide (p.2.expires_at ≤ now))).map Prod.fst) m,
           tc - removedAuths
             ((b.filter (fun p => decide (p.2.expires_at ≤ now))).map Prod.fst) m⟩⟩ :
          PostageAuthorizer) now = [] := by
      show ((b.filter (fun p =>
          !(((b.filter (fun p => decide (p.2.expires_at ≤ now))).map Prod.fst).contains
            p.1))).filter (fun p => decide (p.2.expires_at ≤ now))).map Prod.fst = []
      rw [hbatches, List.filter_filter]
      have hfalse : ∀ p ∈ b,
          (decide (p.2.expires_at ≤ now) && decide (now < p.2.expires_at)) = false := by
        intro p _
        by_cases h : p.2.expires_at ≤ now <;>
          simp [h, show ¬(now < p.2.expires_at ∧ p.2.expires_at ≤ now) by omega]
      rw [List.filter_congr hfalse, List.filter_false]
      rfl
    show PostageAuthorizer.cleanup_expired _ now = _
    unfold PostageAuthorizer.cleanup_expired
    rw [hempty]
    rfl

/-- Witness for C7 at `sampleAuthorizer` and `now = 50`: batch 5 (3
authorizations) expires, batch 6 survives with its authorization, and the
call returns 3 — the entry count, not the batch count 1. -/
theorem cleanup_expired_spec_witness :
    (sampleAuthorizer.cleanup_expired 50).2 = 3 ∧
    (sampleAuthorizer.cleanup_expired 50).1.batches =
      [(6, { expires_at := 100, depth := 2, amount_per_chunk := 1,
             used_stamps := [], immutable := false })] ∧
    (sampleAuthorizer.cleanup_expired 50).1.chunk_auths.authorizations =
      [(70, [(6, 1)])] := by
  have h := cleanup_expired_spec sampleAuthorizer 50 (by decide) (by decide)
  refine ⟨h.2.2.1.trans (by decide), h.1.trans (by decide), h.2.1.trans (by decide)⟩

theorem foldl_cleanup_keeps_empty (ids : List Nat) :
    ∀ (b : List (Nat × BatchInfo)) (tc acc : Nat),
    ((ids.foldl
      (fun (st : PostageAuthorizer × Nat) (batch_id : Nat) =>
        let rb := st.1.chunk_auths.remove_batch batch_id
        ({ batches := st.1.batches.filter (fun p => p.1 != batch_id),
           chunk_auths := rb.1 }, st.2 + rb.2))
      (⟨b, ⟨[], tc⟩⟩, acc)).1).chunk_auths = ⟨[], tc⟩ := by
  induction ids with
  | nil =>
    intro b tc acc
    rfl
  | cons bid rest ih =>
    intro b tc acc
    rw [List.foldl_cons]
    exact ih (b.filter (fun p => p.1 != bid)) tc acc

theorem reachable_auths_empty {a : PostageAuthorizer} (h : Reachable a) :
    a.chunk_auths = ⟨[], 0⟩ := by
  induction h with
  | init => rfl
  | add_batch a id depth expires_at amount_per_chunk immutable a' _ hok ih =>
    unfold PostageAuthorizer.add_batch at hok
    by_cases hc : (lookupBatch a.batches id).isSome
    · rw [if_pos hc] at hok
      exact absurd hok (fun h => Except.noConfusion h)
    · rw [if_neg hc] at hok
      have := Except.ok.inj hok
      rw [← this]
      exact ih
  | cleanup a now _ ih =>
    obtain ⟨b, ca⟩ := a
    have hca : ca = ⟨[], 0⟩ := ih
    subst hca
    exact foldl_cleanup_keeps_empty _ b 0 0

/-- C9: in every `PostageAuthorizer` state reachable from `new()` by
`add_batch`, `validate` and `cleanup_expired`, `authorized_chunk_count`
equals the total number of (batch, stamp) pairs recorded across all
addresses of the chunk-authorization map.  (In this code the map stays
empty in every reachable state, because `validate` records nothing, so
both sides are 0.) -/
theorem authorized_count_matches_recorded_pairs (a : PostageAuthorizer)
    (h : Reachable a) :
    a.authorized_chunk_count = a.chunk_auths.pairCount := by
  have he := reachable_auths_empty h
  unfold PostageAuthorizer.authorized_chunk_count ChunkAuthorizations.pairCount
  rw [he]
  rfl

/-- Witness for C9 at the initial state. -/
theorem authorized_count_matches_recorded_pairs_witness :
    PostageAuthorizer.new.authorized_chunk_count =
      PostageAuthorizer.new.chunk_auths.pairCount :=
  authorized_count_matches_recorded_pairs PostageAuthorizer.new Reachable.init
